import Mathlib

/-!
Verification development for the lazy-nlp-pipeline repository.

Shallow embedding of the core data model and algorithms:
* `doc.py`     : `Doc`, `DocPosition`, `Span` (slicing, concatenation, equality)
* `tokenizer.py`: `Token` (the regex split itself is the external tokenizer
  collaborator; token lists are supplied as data)
* `words_analyzer.py`: `Word`, `squeeze_words`, `eval_words_forward`,
  `eval_words_backward` (the pymorphy morphological analyzer is the external
  collaborator, passed as a `parse` oracle function)
* `patterns.py` : `TokenPattern`, `WordPattern`, `OrPattern`, `RepeatedPattern`,
  `Pattern` with `match_from` / `match`
* `nlp.py`      : `get_pattern`, `eval_lazy_attribute`

Python generators are embedded as list-producing functions; the possibility of
non-termination (unbounded quantifiers over empty-capable subpatterns) and of
exceptions escaping a generator are both embedded by an `Option` result, where
`none` means the run did not complete normally.  Machine-level details
(CPython object identity for docs) are embedded by explicit numeric ids.
-/

namespace LazyNlp

/-- Values stored in an entity's `lazy_attributes` dictionary (strings,
booleans, confidence scores, and Python `None`). -/
inductive AttrVal where
  | s (v : List Char)
  | b (v : Bool)
  | q (v : ℚ)
  | n (v : ℕ)
  | none
deriving DecidableEq, Repr

/-- Python `text[a:b]` for non-negative indices: characters from `a` up to
(excluding) `b`, clamped to the text; empty whenever `b ≤ a`. -/
def pySlice (text : List Char) (a b : ℕ) : List Char :=
  (text.drop a).take (b - a)

/-- Lookup in an association-list embedding of a Python dict. -/
def dictGet (d : List (String × List Char)) (k : String) : Option (List Char) :=
  match d with
  | [] => Option.none
  | (k1, v1) :: rest => if k1 = k then some v1 else dictGet rest k

/-- Python dict assignment `d[k] = v`: update in place if the key exists,
otherwise append (insertion order preserved). -/
def dictSet (d : List (String × List Char)) (k : String) (v : List Char) :
    List (String × List Char) :=
  match d with
  | [] => [(k, v)]
  | (k1, v1) :: rest =>
      if k1 = k then (k1, v) :: rest else (k1, v1) :: dictSet rest k v

/-- Python dict union `a | b`: keys of `a` in order (values overridden by `b`
where present), then the keys only in `b`, in `b`'s order.  Note the RIGHT
operand's value wins on conflict. -/
def dictUnion (a b : List (String × List Char)) : List (String × List Char) :=
  (a.map (fun kv => (kv.1, (dictGet b kv.1).getD kv.2)))
    ++ b.filter (fun kv => (dictGet a kv.1).isNone)

/-- Python dict equality: same keys with equal values, order-insensitive. -/
def dictBeq (a b : List (String × List Char)) : Bool :=
  a.all (fun kv => dictGet b kv.1 = some kv.2)
    && b.all (fun kv => dictGet a kv.1 = some kv.2)

/-- `Token` from tokenizer.py: a text slice with start/end offsets.  The
previous/next links of the source are recovered from the position in
`Doc.tokens`. -/
structure Tok where
  text : List Char
  start : ℕ
  stop : ℕ
deriving DecidableEq, Repr

/-- `Doc`: the owning document.  `id` embeds CPython object identity (used by
`Span.__add__` and `Span.__eq__`, which compare docs with `is`); `tokens` is
the token partition supplied by the tokenizer collaborator. -/
structure Doc where
  id : ℕ
  text : List Char
  tokens : List Tok
deriving DecidableEq, Repr

/-- `Span` from doc.py: document reference (by id), character range, the text
slice captured at construction time, and an attribute dict. -/
structure Span where
  docId : ℕ
  start : ℕ
  stop : ℕ
  text : List Char
  attributes : List (String × List Char)
deriving DecidableEq, Repr

/-- `Span.__init__`: the text is sliced from the document's text at
construction. -/
def mkSpan (d : Doc) (startChar stopChar : ℕ)
    (attributes : List (String × List Char)) : Span :=
  { docId := d.id, start := startChar, stop := stopChar,
    text := pySlice d.text startChar stopChar, attributes := attributes }

/-- `Span.set_attribute`. -/
def Span.setAttribute (s : Span) (k : String) (v : List Char) : Span :=
  { s with attributes := dictSet s.attributes k v }

/-- `Span.__eq__`: same doc (identity), same offsets, equal attribute dicts.
The stored text is determined by doc and offsets and is not compared. -/
def spanBeq (a b : Span) : Bool :=
  a.docId = b.docId && a.start = b.start && a.stop = b.stop
    && dictBeq a.attributes b.attributes

/-- `Span.__add__` from doc.py lines 147-161: requires same doc (identity)
and `self.end_char == other.start_char`; the result is a fresh Span over the
union range with `self.attributes | other.attributes` (Python dict union, in
which the right operand's value wins on a conflicting key).  `d` is the doc
of the left operand (`self.doc`), used by `Span.__init__` to slice the text.
Errors are the `ValueError`s raised by the source. -/
def spanAdd (d : Doc) (a b : Span) : Except String Span :=
  if a.docId ≠ b.docId then
    .error ("To add two Span's they should be from the same Doc")
  else if a.stop ≠ b.start then
    .error ("To add two Span's they should follow each other")
  else
    .ok (mkSpan d a.start b.stop (dictUnion a.attributes b.attributes))

/-- `Doc.__getitem__` with a slice: a character-level span (no attributes). -/
def docSlice (d : Doc) (a b : ℕ) : Span := mkSpan d a b []

/-- `DocPosition.to_span`: the empty span at a position. -/
def posToSpan (d : Doc) (pos : ℕ) : Span := mkSpan d pos pos []

/-- `DocPosition.token_ahead`: the first token of the doc starting exactly at
this offset. -/
def tokenAhead (d : Doc) (pos : ℕ) : Option Tok :=
  d.tokens.find? (fun t => t.start = pos)

/-- `DocPosition.token_behind`: the first token of the doc ending exactly at
this offset. -/
def tokenBehind (d : Doc) (pos : ℕ) : Option Tok :=
  d.tokens.find? (fun t => t.stop = pos)

/-- `Token.to_span`. -/
def tokToSpan (d : Doc) (t : Tok) : Span := mkSpan d t.start t.stop []

/-! ## Words analyzer (words_analyzer.py) -/

/-- `Word`: a candidate morphological segmentation.  `attrs` embeds the
word's `lazy_attributes` dict in insertion order. -/
structure Word where
  docId : ℕ
  text : List Char
  startChar : ℕ
  stopChar : ℕ
  normalizedText : List Char
  attrs : List (String × AttrVal)
deriving DecidableEq, Repr

/-- Lookup in a Word's lazy-attribute dict. -/
def wattrGet (d : List (String × AttrVal)) (k : String) : Option AttrVal :=
  match d with
  | [] => Option.none
  | (k1, v1) :: rest => if k1 = k then some v1 else wattrGet rest k

/-- One entry of the state tuple built by `squeeze_words` (a Python value of
heterogeneous type: doc reference, offset, string, or attribute value). -/
inductive StateVal where
  | n (v : ℕ)
  | s (v : List Char)
  | a (v : AttrVal)
deriving DecidableEq, Repr

/-- Lexicographic code-point order on strings (Python's `<` on str). -/
def keyLt : List Char → List Char → Bool
  | [], [] => false
  | [], _ :: _ => true
  | _ :: _, [] => false
  | a :: as, b :: bs =>
      if a.toNat < b.toNat then true
      else if b.toNat < a.toNat then false
      else keyLt as bs

/-- Stable insert for `sortByKey`: a new element goes after existing
elements with an equal key, as Python's stable `sorted` does. -/
def insertByKey (x : String × AttrVal) : List (String × AttrVal) → List (String × AttrVal)
  | [] => [x]
  | y :: ys => if keyLt x.1.toList y.1.toList then x :: y :: ys else y :: insertByKey x ys

/-- Python `sorted` on the `(key, value)` pairs of a dict: since keys are
unique, sorting by key alone reproduces the order (stable insertion sort). -/
def sortByKey : List (String × AttrVal) → List (String × AttrVal)
  | [] => []
  | x :: xs => insertByKey x (sortByKey xs)

/-- The state tuple of `squeeze_words` (words_analyzer.py lines 236-244):
doc, text, offsets, normalized text, then all lazy attributes except
`score`, sorted. -/
def wordState (w : Word) : List (String × StateVal) :=
  [("doc", StateVal.n w.docId), ("text", StateVal.s w.text),
   ("start_char", StateVal.n w.startChar), ("end_char", StateVal.n w.stopChar),
   ("normalized_text", StateVal.s w.normalizedText)]
  ++ (sortByKey (w.attrs.filter (fun kv => kv.1 ≠ "score"))).map
      (fun kv => (kv.1, StateVal.a kv.2))

/-- The state actually compared, after the optional `keep_only` /
`ignore_only` filters. -/
def squeezeState (keepOnly ignoreOnly : Option (List String)) (w : Word) :
    List (String × StateVal) :=
  let st := wordState w
  let st := match keepOnly with
    | some ks => st.filter (fun kv => ks.any (fun x => x = kv.1))
    | Option.none => st
  match ignoreOnly with
  | some ks => st.filter (fun kv => ¬ ks.any (fun x => x = kv.1))
  | Option.none => st

/-- The `state_to_word` loop of `squeeze_words`: keep the first word of each
state, in first-occurrence order; later words with an already-seen state are
dropped (their scores are NOT combined or changed). -/
def squeezeGo (keepOnly ignoreOnly : Option (List String)) :
    List Word → List (List (String × StateVal)) → List Word
  | [], _ => []
  | w :: ws, seen =>
      let st := squeezeState keepOnly ignoreOnly w
      if seen.any (fun s => s = st) then squeezeGo keepOnly ignoreOnly ws seen
      else w :: squeezeGo keepOnly ignoreOnly ws (st :: seen)

/-- `squeeze_words` (words_analyzer.py lines 222-253).  Raises `ValueError`
when both filters are given. -/
def squeezeWords (words : List Word) (keepOnly ignoreOnly : Option (List String)) :
    Except String (List Word) :=
  if keepOnly.isSome ∧ ignoreOnly.isSome then
    .error ("At least one of keep_only ignore_only should be None")
  else
    .ok (squeezeGo keepOnly ignoreOnly words [])

/-- `squeeze_words(words)` with both filters at their `None` default, as used
by every call site in words_analyzer.py. -/
def squeezeList (words : List Word) : List Word := squeezeGo Option.none Option.none words []

/-- The tag data of one ranked result of the external morphological
analyzer (pymorphy), as read by `parse_words`. -/
structure PTag where
  animacy : AttrVal
  aspect : AttrVal
  case_ : AttrVal
  gender : AttrVal
  involvement : AttrVal
  mood : AttrVal
  number : AttrVal
  pos : AttrVal
  person : AttrVal
  tense : AttrVal
  transitivity : AttrVal
  voice : AttrVal
  grammemes : List (List Char)
  rareCases : List (List Char × List Char)
deriving DecidableEq, Repr

/-- One ranked candidate returned by the external `morph.parse`. -/
structure Parse where
  isKnown : Bool
  normalForm : List Char
  score : ℚ
  tag : PTag
deriving DecidableEq, Repr

/-- Lookup in the tag's `RARE_CASES` table. -/
def rareLookup (rs : List (List Char × List Char)) (c : List Char) : Option (List Char) :=
  match rs with
  | [] => Option.none
  | (k, v) :: rest => if k = c then some v else rareLookup rest c

/-- `w.lazy_attributes['case']`: the tag's case, rewritten through
`RARE_CASES` when listed there. -/
def fixedCase (t : PTag) : AttrVal :=
  match t.case_ with
  | AttrVal.s c =>
      match rareLookup t.rareCases c with
      | some v => AttrVal.s v
      | Option.none => AttrVal.s c
  | v => v

/-- The `role` attribute: the last grammeme among Name/Surn/Patr, else None. -/
def roleOf (gs : List (List Char)) : AttrVal :=
  gs.foldl
    (fun acc g =>
      if g = ("Name").toList ∨ g = ("Surn").toList ∨ g = ("Patr").toList
      then AttrVal.s g else acc)
    AttrVal.none

/-- `WordsAnalyzer.parse_words` (words_analyzer.py lines 182-219): wrap each
ranked result of the morphological analyzer into a Word spanning
`[start_char, end_char]`, with the attribute dict written in source order. -/
def parseWords (lang : List Char) (parse : List Char → List Parse)
    (docId : ℕ) (docText : List Char)
    (text : List Char) (startChar stopChar : ℕ) : List Word :=
  (parse text).map fun p =>
    { docId := docId,
      text := pySlice docText startChar stopChar,
      startChar := startChar, stopChar := stopChar,
      normalizedText := text,
      attrs :=
        [("lang", AttrVal.s lang), ("is_known", AttrVal.b p.isKnown),
         ("lemma", AttrVal.s p.normalForm), ("score", AttrVal.q p.score),
         ("animacy", p.tag.animacy), ("aspect", p.tag.aspect),
         ("case_plus", p.tag.case_), ("case", fixedCase p.tag),
         ("gender", p.tag.gender), ("involvement", p.tag.involvement),
         ("mood", p.tag.mood), ("number", p.tag.number),
         ("pos", p.tag.pos), ("person", p.tag.person),
         ("tense", p.tag.tense), ("transitivity", p.tag.transitivity),
         ("voice", p.tag.voice), ("role", roleOf p.tag.grammemes)] }

/-- Configuration of one `WordsAnalyzer` instance (language, character sets,
per-character replacements). -/
structure WAConfig where
  lang : List Char
  wordChars : List Char
  firstChars : List Char
  lastChars : List Char
  replacements : List (Char × List Char)
deriving Repr

/-- Python `str.lower` for each character, covering the ASCII and Cyrillic
ranges this repository works with. -/
def pyLowerChar (c : Char) : Char :=
  if 65 ≤ c.toNat ∧ c.toNat ≤ 90 then Char.ofNat (c.toNat + 32)
  else if 0x410 ≤ c.toNat ∧ c.toNat ≤ 0x42F then Char.ofNat (c.toNat + 32)
  else if c.toNat = 0x401 then Char.ofNat 0x451
  else if c.toNat = 0x404 then Char.ofNat 0x454
  else if c.toNat = 0x406 then Char.ofNat 0x456
  else if c.toNat = 0x407 then Char.ofNat 0x457
  else if c.toNat = 0x490 then Char.ofNat 0x491
  else c

/-- Apply the analyzer's per-character `str.replace` chain to a string. -/
def applyRepl (rs : List (Char × List Char)) (s : List Char) : List Char :=
  rs.foldl (fun acc kv => acc.flatMap (fun c => if c = kv.1 then kv.2 else [c])) s

/-- Python `ch in chars` for a character and a character-set string. -/
def charMem (c : Char) (chars : List Char) : Bool :=
  chars.any (fun x => x = c)

/-- `prefix[:1].lower() in chars` for a nonempty string. -/
def headLowerMem (s : List Char) (chars : List Char) : Bool :=
  match s with
  | [] => false
  | c :: _ => charMem (pyLowerChar c) chars

/-- `s[-1:].lower() in chars` for a nonempty string. -/
def lastLowerMem (s : List Char) (chars : List Char) : Bool :=
  match s.getLast? with
  | some c => charMem (pyLowerChar c) chars
  | Option.none => false

/-- `WordsAnalyzer.eval_words_forward` (words_analyzer.py lines 119-145),
walking from the anchor token over the following tokens (`ts` is the token
chain starting at the anchor).  `acc` is the anchor token's
`words_starting_here` cache, extended and re-squeezed at each generation
step exactly as the source does; the branch aborts (returning the cache
unchanged from that point on) when the accumulated prefix has a character
outside the word-character set, is empty, or starts with a disallowed first
character. -/
def evalWFGo (cfg : WAConfig) (parse : List Char → List Parse)
    (docId : ℕ) (docText : List Char) (anchorStart : ℕ) :
    List Tok → List Char → List Word → List Word
  | [], _, acc => acc
  | t :: rest, pref0, acc =>
      let pref := applyRepl cfg.replacements (pref0 ++ t.text)
      if (pref.map pyLowerChar).any (fun ch => ¬ charMem ch cfg.wordChars) ∨ pref = [] then acc
      else if ¬ headLowerMem pref cfg.firstChars then acc
      else
        let acc1 :=
          if lastLowerMem pref cfg.lastChars then
            squeezeList (acc ++ parseWords cfg.lang parse docId docText pref anchorStart t.stop)
          else acc
        match rest with
        | [] => acc1
        | _ => evalWFGo cfg parse docId docText anchorStart rest pref acc1

/-- `WordsAnalyzer.eval_words_backward` (words_analyzer.py lines 147-173),
walking from the anchor (end) token over the preceding tokens (`ts` is the
reversed token chain ending at the anchor).  Mirror of the forward pass:
aborts when the accumulated suffix has an illegal character, is empty, or
ends with a disallowed last character; generates when the first character is
allowed. -/
def evalWBGo (cfg : WAConfig) (parse : List Char → List Parse)
    (docId : ℕ) (docText : List Char) (anchorStop : ℕ) :
    List Tok → List Char → List Word → List Word
  | [], _, acc => acc
  | t :: restRev, sfx0, acc =>
      let sfx := applyRepl cfg.replacements (t.text ++ sfx0)
      if (sfx.map pyLowerChar).any (fun ch => ¬ charMem ch cfg.wordChars) ∨ sfx = [] then acc
      else if ¬ lastLowerMem sfx cfg.lastChars then acc
      else
        let acc1 :=
          if headLowerMem sfx cfg.firstChars then
            squeezeList (acc ++ parseWords cfg.lang parse docId docText sfx t.start anchorStop)
          else acc
        match restRev with
        | [] => acc1
        | _ => evalWBGo cfg parse docId docText anchorStop restRev sfx acc1

/-- A registered words analyzer: its configuration together with the external
morphological oracle it consults. -/
structure WAnalyzer where
  cfg : WAConfig
  parse : List Char → List Parse

/-- `token.words_starting_here` for the token at index `i` of the doc, after
all registered words analyzers ran in registration order (each one extends
and squeezes the same cache, starting from empty). -/
def wordsStartingHere (was : List WAnalyzer) (d : Doc) (i : ℕ) : List Word :=
  was.foldl
    (fun acc a =>
      match d.tokens.drop i with
      | [] => acc
      | t :: rest => evalWFGo a.cfg a.parse d.id d.text t.start (t :: rest) [] acc)
    []

/-- `token.words_ending_here` for the token at index `i` of the doc. -/
def wordsEndingHere (was : List WAnalyzer) (d : Doc) (i : ℕ) : List Word :=
  was.foldl
    (fun acc a =>
      match (d.tokens.take (i + 1)).reverse with
      | [] => acc
      | t :: rest => evalWBGo a.cfg a.parse d.id d.text t.stop (t :: rest) [] acc)
    []

/-- The uk configuration of `WordsAnalyzer` (its DEFAULT_* class tables). -/
def ukCfg : WAConfig :=
  { lang := ("uk").toList,
    wordChars := Char.ofNat 39 :: ("-.абвгдежзийклмнопрстуфхцчшщьюяєіїґ").toList,
    firstChars := ("абвгдежзийклмнопрстуфхцчшщюяєіїґ").toList,
    lastChars := (".абвгдежзийклмнопрстуфхцчшщьюяєіїґ").toList,
    replacements := [(Char.ofNat 96, [Char.ofNat 39]), (Char.ofNat 0x301, [])] }

/-- The ru configuration of `WordsAnalyzer`. -/
def ruCfg : WAConfig :=
  { lang := ("ru").toList,
    wordChars := Char.ofNat 39 :: ("-.0123456789абвгдежзийклмнопрстуфхцчшщъыьэюяё’").toList,
    firstChars := ("абвгдежзийклмнопрстуфхцчшщыэюяё").toList,
    lastChars := ("абвгдежзийклмнопрстуфхцчшщъыьэюяё").toList,
    replacements := [] }

/-! ## Pattern engine (patterns.py)

Generators are embedded as list-valued functions; `Option.none` means the run
did not complete normally (an uncaught exception escaping the generator, or
in the case of unbounded quantifiers over empty-capable subpatterns, a
non-terminating recursion, bounded here by fuel). -/

/-- Python `str.isspace` character class (the whitespace this repo's token
texts can contain). -/
def pyIsSpaceChar (c : Char) : Bool :=
  c.toNat = 32 ∨ c.toNat = 9 ∨ c.toNat = 10 ∨ c.toNat = 13 ∨ c.toNat = 11 ∨ c.toNat = 12

/-- Python `str.isspace`: nonempty and all characters whitespace. -/
def pyIsSpace (s : List Char) : Bool := s ≠ [] && s.all pyIsSpaceChar

/-- Python `str.isalpha` restricted to ASCII and Cyrillic letters. -/
def pyIsAlphaChar (c : Char) : Bool :=
  (65 ≤ c.toNat ∧ c.toNat ≤ 90) ∨ (97 ≤ c.toNat ∧ c.toNat ≤ 122)
    ∨ (0x400 ≤ c.toNat ∧ c.toNat ≤ 0x4FF)

/-- Python `str.isalpha`. -/
def pyIsAlpha (s : List Char) : Bool := s ≠ [] && s.all pyIsAlphaChar

/-- Python `str.isnumeric` restricted to ASCII digits. -/
def pyIsNumericChar (c : Char) : Bool := 48 ≤ c.toNat ∧ c.toNat ≤ 57

/-- Python `str.isnumeric`. -/
def pyIsNumeric (s : List Char) : Bool := s ≠ [] && s.all pyIsNumericChar

/-- Python `str.isupper` for a single character (ASCII and Cyrillic). -/
def pyIsUpperChar (c : Char) : Bool :=
  (65 ≤ c.toNat ∧ c.toNat ≤ 90) ∨ (0x410 ≤ c.toNat ∧ c.toNat ≤ 0x42F)
    ∨ c.toNat = 0x401 ∨ c.toNat = 0x404 ∨ c.toNat = 0x406 ∨ c.toNat = 0x407
    ∨ c.toNat = 0x490

/-- `TokenPattern`: the guards of one atomic token predicate.  The `to_check`
list of the source always holds the present guards in the fixed constructor
order text, isalpha, isnumeric, isspace, min_len, max_len. -/
structure TPat where
  text : Option (List Char)
  ignoreCase : Bool
  isalpha : Option Bool
  isnumeric : Option Bool
  isspace : Option Bool
  minLen : Option ℕ
  maxLen : Option ℕ
deriving DecidableEq, Repr

/-- `TokenPattern(text)`: only a text guard. -/
def tpText (s : String) : TPat :=
  { text := some s.toList, ignoreCase := false, isalpha := Option.none,
    isnumeric := Option.none, isspace := Option.none, minLen := Option.none,
    maxLen := Option.none }

/-- `TokenPattern.match_from` guard loop (patterns.py lines 203-229): each
present guard is checked in `to_check` order, returning (no match) on the
first failure. -/
def tpCheck (p : TPat) (tokText : List Char) : Bool :=
  (match p.text with
   | some pt =>
       if p.ignoreCase then decide (tokText.map pyLowerChar = pt.map pyLowerChar)
       else decide (tokText = pt)
   | Option.none => true)
  && (match p.isalpha with
      | some b => pyIsAlpha tokText = b
      | Option.none => true)
  && (match p.isnumeric with
      | some b => pyIsNumeric tokText = b
      | Option.none => true)
  && (match p.isspace with
      | some b => pyIsSpace tokText = b
      | Option.none => true)
  && (match p.minLen with
      | some m => ¬ (tokText.length < m)
      | Option.none => true)
  && (match p.maxLen with
      | some m => ¬ (m < tokText.length)
      | Option.none => true)

/-- `WordPattern`: optional text guard plus arbitrary attribute guards
(`kwargs`), checked in declaration order. -/
structure WPat where
  text : Option (List Char)
  ignoreCase : Bool
  kwargs : List (String × AttrVal)
deriving DecidableEq, Repr

/-- `getattr(word, name)` as used by `WordPattern.pass_guards`: named Word
fields first, otherwise the lazy-attribute dict; a missing attribute raises
(`Option.none`: no analyzer is registered for Word attributes). -/
def wordGetattr (w : Word) (k : String) : Option AttrVal :=
  if k = "text" then some (AttrVal.s w.text)
  else if k = "normalized_text" then some (AttrVal.s w.normalizedText)
  else if k = "start_char" then some (AttrVal.n w.startChar)
  else if k = "end_char" then some (AttrVal.n w.stopChar)
  else if k = "is_capitalized" then
    some (AttrVal.b (match w.text with
      | [] => false
      | c :: _ => pyIsUpperChar c))
  else wattrGet w.attrs k

/-- The kwarg-guard loop of `WordPattern.pass_guards`. -/
def wpGuardsGo (w : Word) : List (String × AttrVal) → Option Bool
  | [] => some true
  | (k, v) :: rest =>
      match wordGetattr w k with
      | Option.none => Option.none
      | some av => if av ≠ v then some false else wpGuardsGo w rest

/-- `WordPattern.pass_guards` (patterns.py lines 288-304): the text rule
first (when present), then each kwarg guard in order. -/
def wpGuards (p : WPat) (w : Word) : Option Bool :=
  let tOk : Bool :=
    match p.text with
    | some pt =>
        if p.ignoreCase then decide (w.text.map pyLowerChar = pt.map pyLowerChar)
        else decide (w.text = pt)
    | Option.none => true
  if ¬ tOk then some false else wpGuardsGo w p.kwargs

mutual
/-- The `allow_inbetween` field of a `Pattern`: `None`, a pre-registered
pattern name, or a pattern object. -/
inductive Filler where
  | nul
  | byName (s : String)
  | byPat (p : Pat)

/-- The pattern algebra of patterns.py: `TokenPattern`, `WordPattern`,
`OrPattern`, `RepeatedPattern` (inclusive arity bounds, `Option.none` max =
unbounded), and `Pattern` (sequence with optional filler and `as_attribute`
name). -/
inductive Pat where
  | tp (p : TPat)
  | wp (p : WPat)
  | orp (subs : List Pat)
  | rep (sub : Pat) (arityMin : ℕ) (arityMax : Option ℕ)
  | seq (subs : List Pat) (aib : Filler) (asAttr : Option String)
end

/-- The built-in registered pattern: `TokenPattern(isspace=True)[:]`, i.e.
any quantity of space tokens. -/
def spacesPat : Pat :=
  Pat.rep
    (Pat.tp { text := Option.none, ignoreCase := false, isalpha := Option.none,
              isnumeric := Option.none, isspace := some true,
              minLen := Option.none, maxLen := Option.none })
    0 Option.none

/-- `NLP.get_pattern` (nlp.py lines 228-236): only the name SPACES is
registered; any other name falls off the end of the function and returns
`None`. -/
def getPattern (s : String) : Option Pat :=
  if s = "SPACES" then some spacesPat else Option.none

/-- Lines 367-368 of patterns.py: a string-valued `allow_inbetween` is
replaced by `nlp.get_pattern(name)`, which is a pattern for SPACES and
`None` for every other name.  Non-string fillers are left alone.  The
operation is idempotent. -/
def resolveFiller (f : Filler) : Filler :=
  match f with
  | Filler.byName s =>
      match getPattern s with
      | some p => Filler.byPat p
      | Option.none => Filler.nul
  | g => g

/-- The word caches consulted by `WordPattern.match_from`:
`words_starting_here` / `words_ending_here` per token index. -/
structure WordCaches where
  starting : ℕ → List Word
  ending : ℕ → List Word

/-- Find a token together with its index. -/
def findWithIdx : List Tok → (Tok → Bool) → ℕ → Option (ℕ × Tok)
  | [], _, _ => Option.none
  | t :: rest, f, i => if f t then some (i, t) else findWithIdx rest f (i + 1)

/-- The per-frame duplicate suppression of `Pattern.match_from`: the source
threads a `yielded` list and skips a result whose span equals
(`Span.__eq__`) an earlier yielded span.  Over the frame's complete output
this equals a single stable keep-first pass keyed on span equality.  `post`
models the aliasing between this list and the outermost call's
`as_attribute` write: the outer loop mutates each span object right after
the frame yields it, and the frame's `yielded` list holds those same
objects, so later candidates are compared against the already-mutated
spans; for inner frames (and without `as_attribute`) `post` is the
identity. -/
def dedupPairsGo (post : Span → Span) : List (Span × ℕ) → List Span → List (Span × ℕ)
  | [], _ => []
  | (s, p) :: rest, seen =>
      if seen.any (fun y => spanBeq y s) then dedupPairsGo post rest seen
      else (post s, p) :: dedupPairsGo post rest (post s :: seen)

/-- Keep-first duplicate suppression on spans, with the post-yield
transform applied to everything kept. -/
def dedupPairs (post : Span → Span) (l : List (Span × ℕ)) : List (Span × ℕ) :=
  dedupPairsGo post l []

/-- `matched + matched_inbetween + matched_next` (left associated, as Python
evaluates `+`); any adjacency failure raises. -/
def addSeq (d : Doc) (a b c : Span) : Option Span := do
  let x ← (spanAdd d a b).toOption
  (spanAdd d x c).toOption

/-- The loop body of `RepeatedPattern.match_from` (patterns.py lines
90-108): for each match `(sp, nextPos)` of the wrapped pattern, concatenate
onto `previously_matched` in traversal order (an adjacency failure raises),
yield the current accumulation when `min_matches <= 1`, then recurse deeper
(`deepF`, the recursive `self.match_from` call, absent when max is
exhausted), then continue the loop; the zero-repetition yield when
`min_matches == 0` comes after the loop. -/
def repLoopF (d : Doc) (fwd : Bool) (deepF : ℕ → Span → Option (List (Span × ℕ)))
    (pos : ℕ) (prev : Span) (minM : ℕ) :
    List (Span × ℕ) → Option (List (Span × ℕ))
  | [] => some (if minM = 0 then [(prev, pos)] else [])
  | (sp, nextPos) :: rest => do
      let matched ← (if fwd then spanAdd d prev sp else spanAdd d sp prev).toOption
      let cur := if minM ≤ 1 then [(matched, nextPos)] else []
      let deeper ← deepF nextPos matched
      let tailRes ← repLoopF d fwd deepF pos prev minM rest
      some (cur ++ deeper ++ tailRes)

/-- `RepeatedPattern.match_from` (patterns.py lines 78-108).  `sub` is the
wrapped pattern's `match_from` at the current direction; `prev` is
`previously_matched`; `minM`/`maxM` are `min_matches`/`max_matches`.  Fuel
bounds the recursion depth, which the source does not: with an unbounded
max over an empty-capable subpattern the source generator never finishes. -/
def repFromF (sub : ℕ → Option (List (Span × ℕ))) (d : Doc) (fwd : Bool) :
    ℕ → ℕ → Span → ℕ → Option ℕ → Option (List (Span × ℕ))
  | 0, _, _, _, _ => Option.none
  | f + 1, pos, prev, minM, maxM => do
      let l ← sub pos
      repLoopF d fwd
        (fun nextPos matched =>
          match maxM with
          | Option.none =>
              repFromF sub d fwd f nextPos matched (max 1 (minM - 1)) Option.none
          | some m =>
              if 1 < m then
                repFromF sub d fwd f nextPos matched (max 1 (minM - 1)) (some (m - 1))
              else some [])
        pos prev minM l

/-- The `allow_inbetween is None` combination step: for each match of the
remaining subpatterns, `matched + matched_next` in traversal order. -/
def seqCombineNulF (d : Doc) (fwd : Bool) (matched : Span) :
    List (Span × ℕ) → Option (List (Span × ℕ))
  | [] => some []
  | (mn, anp) :: rest => do
      let sp ← (if fwd then spanAdd d matched mn else spanAdd d mn matched).toOption
      let tailRes ← seqCombineNulF d fwd matched rest
      some ((sp, anp) :: tailRes)

/-- The filler combination step (patterns.py lines 383-399): build
`matched + matched_inbetween + matched_next` in traversal order, then drop
the result when the filler is non-empty while the match on either side is
empty. -/
def seqCombineF (d : Doc) (fwd : Bool) (matched mib : Span) :
    List (Span × ℕ) → Option (List (Span × ℕ))
  | [] => some []
  | (mn, anp) :: rest => do
      let sp ← if fwd then addSeq d matched mib mn else addSeq d mn mib matched
      let tailRes ← seqCombineF d fwd matched mib rest
      if mn.stop = mn.start ∧ ¬ mib.stop = mib.start then some tailRes
      else if matched.stop = matched.start ∧ ¬ mib.stop = mib.start then some tailRes
      else some ((sp, anp) :: tailRes)

/-- `subpatterns_to_match[0]` / `subpatterns_to_match[-1]`: the subpattern
matched first at this frame, by traversal direction. -/
def seqCur (fwd : Bool) (s0 : Pat) (srest : List Pat) : Pat :=
  if fwd then s0 else (s0 :: srest).getLast (by simp)

/-- `subpatterns_to_match[1:]` / `subpatterns_to_match[:-1]`: the remaining
subpatterns, by traversal direction. -/
def seqRest (fwd : Bool) (s0 : Pat) (srest : List Pat) : List Pat :=
  if fwd then srest else (s0 :: srest).dropLast

@[simp] theorem seqRest_length (fwd : Bool) (s0 : Pat) (srest : List Pat) :
    (seqRest fwd s0 srest).length = srest.length := by
  unfold seqRest
  split
  · rfl
  · simp

/-- The loop over the filler pattern's matches for one current match
(patterns.py lines 381-399): for each filler match, match the remaining
subpatterns (`restF`, the recursive frame call) at the position past the
filler and combine. -/
def seqFillerIterF (d : Doc) (fwd : Bool) (restF : ℕ → Option (List (Span × ℕ)))
    (matched : Span) : List (Span × ℕ) → Option (List (Span × ℕ))
  | [] => some []
  | (mib, aip) :: fr => do
      let rs ← restF aip
      let cur ← seqCombineF d fwd matched mib rs
      let tailRes ← seqFillerIterF d fwd restF matched fr
      some (cur ++ tailRes)

/-- The loop over the current subpattern's matches inside a sequence frame
(patterns.py lines 355-399, the more-than-one-subpattern path): for each
match, match the remaining subpatterns (`restF`) directly when the resolved
filler is None, or through the filler pattern (`mf`) otherwise.  A
still-string filler is unreachable after line 368's resolution. -/
def seqIterF (mf : Pat → ℕ → Option (List (Span × ℕ))) (d : Doc) (fwd : Bool)
    (aibR : Filler) (restF : ℕ → Option (List (Span × ℕ))) :
    List (Span × ℕ) → Option (List (Span × ℕ))
  | [] => some []
  | (matched, np) :: rest => do
      let cur ←
        match aibR with
        | Filler.nul => do
            let rs ← restF np
            seqCombineNulF d fwd matched rs
        | Filler.byPat fp => do
            let fr ← mf fp np
            seqFillerIterF d fwd restF matched fr
        | Filler.byName _ => Option.none
      let tailRes ← seqIterF mf d fwd aibR restF rest
      some (cur ++ tailRes)

/-- The `as_attribute` write of the outermost `Pattern.match_from` call
(lines 347-348): record the matched text under the configured name. -/
def applyAsAttr (asAttr : Option String) (s : Span) : Span :=
  match asAttr with
  | some k => s.setAttribute k s.text
  | Option.none => s

/-- One recursion frame of `Pattern.match_from` with an explicit
`subpatterns_to_match` list (patterns.py lines 351-399).  `mf` is the
matcher for subpatterns and fillers (`match_from` of the nested pattern
objects); `aib` is the sequence's `allow_inbetween` field, re-resolved at
each frame exactly as the mutating source does (the assignment on line 368
is idempotent); `post` is the outermost call's per-yield `as_attribute`
write (identity for recursive frames, which the outer loop never touches).
The first numeric argument bounds the frame recursion and is instantiated
with `stm.length`, which strictly decreases across frames; an empty `stm`
is the source's IndexError. -/
def seqFromF (mf : Pat → ℕ → Option (List (Span × ℕ))) (d : Doc)
    (aib : Filler) (fwd : Bool) (post : Span → Span) :
    ℕ → List Pat → ℕ → Option (List (Span × ℕ))
  | 0, _, _ => Option.none
  | _ + 1, [], _ => Option.none
  | _ + 1, [s1], pos => do
      let spRes ← mf s1 pos
      some (dedupPairs post spRes)
  | b + 1, s0 :: s1 :: srest, pos => do
      let spRes ← mf (seqCur fwd s0 (s1 :: srest)) pos
      let raw ← seqIterF mf d fwd (resolveFiller aib)
        (fun q => seqFromF mf d aib fwd (applyAsAttr Option.none) b
          (seqRest fwd s0 (s1 :: srest)) q) spRes
      some (dedupPairs post raw)

/-- The word-candidate loop of `WordPattern.match_from` (patterns.py lines
281-286): for each cached word passing the guards, yield the character-level
doc slice of the word's range and the position at its far end. -/
def wpIter (d : Doc) (p : WPat) (fwd : Bool) : List Word → Option (List (Span × ℕ))
  | [] => some []
  | w :: ws => do
      let ok ← wpGuards p w
      let tailRes ← wpIter d p fwd ws
      if ok then
        some ((docSlice d w.startChar w.stopChar,
               if fwd then w.stopChar else w.startChar) :: tailRes)
      else some tailRes

/-- `match_from` of every pattern variant (patterns.py), embedding
`TokenPattern.match_from`, `WordPattern.match_from`, `OrPattern.match_from`,
`RepeatedPattern.match_from` and `Pattern.match_from`, producing the list of
`(matched_span, next_position)` pairs a full iteration of the source
generator yields. -/
def matchFrom (d : Doc) (wc : WordCaches) :
    ℕ → Pat → ℕ → Bool → Option (List (Span × ℕ))
  | 0, _, _, _ => Option.none
  | f + 1, q, pos, fwd =>
      match q with
      | Pat.tp p =>
          match (if fwd then tokenAhead d pos else tokenBehind d pos) with
          | Option.none => some []
          | some t =>
              if tpCheck p t.text then
                some [(tokToSpan d t, if fwd then t.stop else t.start)]
              else some []
      | Pat.wp p => do
          let found := if fwd then findWithIdx d.tokens (fun t => t.start = pos) 0
                       else findWithIdx d.tokens (fun t => t.stop = pos) 0
          match found with
          | Option.none => some []
          | some (i, _) =>
              let words := if fwd then wc.starting i else wc.ending i
              wpIter d p fwd words
      | Pat.orp subs =>
          subs.foldlM
            (fun acc sp => do
              let r ← matchFrom d wc f sp pos fwd
              pure (acc ++ r))
            []
      | Pat.rep sub mn mx =>
          repFromF (fun ppos => matchFrom d wc f sub ppos fwd) d fwd
            (f + 1) pos (posToSpan d pos) mn mx
      | Pat.seq subs aib asAttr =>
          seqFromF (fun sq qpos => matchFrom d wc f sq qpos fwd) d aib fwd
            (applyAsAttr asAttr) subs.length subs pos

/-- `Pattern.match` (patterns.py lines 326-337): try `match_from` at offset 0
(for the token starting there) and at every token's end offset, collecting
every matched span. -/
def patMatchGo (d : Doc) (wc : WordCaches) (fuel : ℕ) (p : Pat) (fwd : Bool) :
    List Tok → Option (List Span)
  | [] => some []
  | t :: rest => do
      let first ←
        if t.start = 0 then do
          let r ← matchFrom d wc fuel p t.start fwd
          pure (r.map (fun x => x.1))
        else pure ([] : List Span)
      let r2 ← matchFrom d wc fuel p t.stop fwd
      let tailRes ← patMatchGo d wc fuel p fwd rest
      some (first ++ r2.map (fun x => x.1) ++ tailRes)

/-- `Pattern.match`: the full document scan. -/
def patMatch (d : Doc) (wc : WordCaches) (fuel : ℕ) (p : Pat) (fwd : Bool) :
    Option (List Span) :=
  patMatchGo d wc fuel p fwd d.tokens

/-- Span-set equality (the claim's "set of (start, end, attributes)"):
mutual containment up to `Span.__eq__`. -/
def spanSetBeq (a b : List Span) : Bool :=
  a.all (fun s => b.any (fun t => spanBeq s t))
    && b.all (fun s => a.any (fun t => spanBeq s t))

/-- The value of the sequence's `allow_inbetween` field after one
`Pattern.match_from` call at this frame.  Lines 367-368 of patterns.py run
once per iteration of the loop over the current subpattern's matches, and
only when more than one subpattern remains; the assignment stores
`nlp.get_pattern(name)` and is idempotent, so the field ends up resolved
exactly when that loop body ran at least once, i.e. when the current
subpattern produced at least one match. -/
def seqFillerAfter (mf : Pat → ℕ → Option (List (Span × ℕ)))
    (aib : Filler) (fwd : Bool) (stm : List Pat) (pos : ℕ) : Filler :=
  match stm with
  | [] => aib
  | [_] => aib
  | s0 :: s1 :: srest =>
      match mf (seqCur fwd s0 (s1 :: srest)) pos with
      | some (_ :: _) => resolveFiller aib
      | _ => aib

/-! ## Lazy attribute framework (base_classes.py, nlp.py) and analyzer
cache discipline (tokenizer.py, words_analyzer.py, patterns.py) -/

/-- A value in a Doc's / Token's `lazy_attributes` cache. -/
inductive DAttr where
  | toks (ts : List Tok)
  | findTagsClosure
  | wlist (ws : List Word)
deriving Repr

/-- `name in entity.lazy_attributes`. -/
def cacheHas (cache : List (String × DAttr)) (k : String) : Bool :=
  cache.any (fun kv => kv.1 = k)

/-- `Tokenizer.eval_tokens` (tokenizer.py lines 25-53): raises when the doc
already has a `tokens` cache entry; otherwise stores the token partition.
`split` is the regex tokenization of the text (the character-class split,
an external collaborator per the spec's interface section). -/
def evalTokens (split : List Char → List Tok) (text : List Char)
    (cache : List (String × DAttr)) : Except String (List (String × DAttr)) :=
  if cacheHas cache ("tokens") then
    .error ("Tokenizer dont work with already tokenized docs")
  else
    .ok (cache ++ [(("tokens"), DAttr.toks (split text))])

/-- `PatternAnalyzer.eval_find_tags` (patterns.py lines 58-63): raises when
`find_tags` is already implemented for the doc; otherwise stores the
closure. -/
def evalFindTags (cache : List (String × DAttr)) : Except String (List (String × DAttr)) :=
  if ¬ cacheHas cache ("find_tags") then
    .ok (cache ++ [(("find_tags"), DAttr.findTagsClosure)])
  else
    .error ("doc.find_tags already implemented")

/-- `WordsAnalyzer.eval_words_forward` invoked on an anchor token whose
`words_starting_here` cache may already exist (words_analyzer.py lines
123-124): the existing value is NOT an error; the analyzer initializes the
cache to `[]` only when missing, then extends and re-squeezes whatever is
there.  `ts` is the token chain starting at the anchor.  There is no raise
path, in contrast to `Tokenizer.eval_tokens`. -/
def evalWordsForwardOnce (cfg : WAConfig) (parse : List Char → List Parse)
    (docId : ℕ) (docText : List Char) (ts : List Tok)
    (existing : Option (List Word)) : Except String (List Word) :=
  match ts with
  | [] => .ok (existing.getD [])
  | t :: rest => .ok (evalWFGo cfg parse docId docText t.start (t :: rest) [] (existing.getD []))

/-- The classes that occur as analyzer target types in this repository
(`analyzer.targets`): they are unrelated by inheritance, so `isinstance`
is kind equality. -/
inductive EKind where
  | doc
  | token
  | word
deriving DecidableEq, Repr

/-- `NLP.eval_lazy_attribute` (nlp.py lines 48-58): invoke every analyzer
registered for the pair (class of target, attribute name); raise
AttributeError exactly when none was invoked.  `reg` is the list of
`(target_class, target_attribute)` pairs collected by `add_analyzer`. -/
def evalLazyAttribute (reg : List (EKind × String)) (k : EKind) (name : String) :
    Except String Unit :=
  if reg.any (fun e => e.1 = k ∧ e.2 = name) then .ok ()
  else .error ("no analyzer for attribute")

/-! ## Claim C8 -/

/-- C8: `Span.__add__` raises exactly when the operands come from different
documents or are not adjacent (`a.end_char != b.start_char`); otherwise it
returns the concatenated span.  The operation constructs a fresh span and
raises before building anything, so the operands are never modified (the
embedding is a pure function of the operand values). -/
theorem c8_span_concat_error_iff (d : Doc) (a b : Span) :
    (spanAdd d a b).toOption = Option.none ↔ (a.docId ≠ b.docId ∨ a.stop ≠ b.start) := by
  unfold spanAdd
  by_cases h1 : a.docId = b.docId <;> by_cases h2 : a.stop = b.start <;>
    simp [h1, h2, Except.toOption]

/-! ## Claim C2 -/

/-- The document of the C2 failing input. -/
def c2Doc : Doc := { id := 0, text := ("ab").toList, tokens := [] }

/-- C2 evaluated at the failing input: two adjacent spans of the same doc
both carrying attribute `k` (left value `a`, right value `b`).  The source's
`self.attributes | other.attributes` is a Python dict union, in which the
RIGHT operand's value wins, so the result holds `b` — although the method's
own docstring says "first Span have priority" and the claim says the left
operand's keys take priority. -/
theorem c2_attr_merge_right_priority :
    spanAdd c2Doc (mkSpan c2Doc 0 1 [(("k"), ("a").toList)])
        (mkSpan c2Doc 1 2 [(("k"), ("b").toList)])
      = .ok (mkSpan c2Doc 0 2 [(("k"), ("b").toList)])
    ∧ ("b").toList ≠ ("a").toList := by
  exact ⟨rfl, by decide⟩

/-! ## Claim C9 -/

/-- A document used for the C9 counterexample. -/
def c9Doc : Doc := { id := 1, text := ("abcd").toList, tokens := [] }

/-- C9 counterexample: `doc[5:2]` (document slicing, one of the very
constructions the claim quantifies over) produces a Span with
`end_char < start_char`; neither `Span.__init__` nor `Doc.__getitem__`
enforces `end ≥ start`. -/
theorem c9_counterexample :
    (docSlice c9Doc 5 2).start = 5 ∧ (docSlice c9Doc 5 2).stop = 2 ∧
      ¬ (docSlice c9Doc 5 2).start ≤ (docSlice c9Doc 5 2).stop := by
  exact ⟨rfl, rfl, by decide⟩

/-- C9 amended: every constructed Span satisfies
`text == document.text[start:end]` (with Python slice semantics, under
which the slice of a reversed range is empty); `end ≥ start` is NOT
enforced by construction or slicing, but holds for token-to-span conversion
of a well-formed token and is preserved by span concatenation. -/
theorem c9_span_text_invariant :
    (∀ (d : Doc) (a b : ℕ) (ats : List (String × List Char)),
        (mkSpan d a b ats).text = pySlice d.text a b ∧
          (mkSpan d a b ats).start = a ∧ (mkSpan d a b ats).stop = b)
    ∧ (∀ (d : Doc) (t : Tok), t.start ≤ t.stop →
        (tokToSpan d t).start ≤ (tokToSpan d t).stop ∧
          (tokToSpan d t).text = pySlice d.text t.start t.stop)
    ∧ (∀ (d : Doc) (a b c : Span), spanAdd d a b = .ok c →
        a.start ≤ a.stop → b.start ≤ b.stop →
        c.start ≤ c.stop ∧ c.text = pySlice d.text c.start c.stop) := by
  refine ⟨fun d a b ats => ⟨rfl, rfl, rfl⟩, fun d t h => ⟨h, rfl⟩, ?_⟩
  intro d a b c h ha hb
  unfold spanAdd at h
  by_cases h1 : a.docId = b.docId
  · by_cases h2 : a.stop = b.start
    · simp only [h1, h2, ne_eq, not_true_eq_false, if_false, ite_false,
        if_neg, Except.ok.injEq] at h
      · cases h
        constructor
        · show a.start ≤ b.stop
          omega
        · rfl
    · simp [h1, h2] at h
  · simp [h1] at h

/-- C9 witness: the amended theorem applied to a concrete well-formed token
and a concrete adjacent concatenation. -/
theorem c9_witness :
    ((tokToSpan c9Doc ⟨("ab").toList, 0, 2⟩).start ≤
        (tokToSpan c9Doc ⟨("ab").toList, 0, 2⟩).stop ∧
      (tokToSpan c9Doc ⟨("ab").toList, 0, 2⟩).text = pySlice c9Doc.text 0 2) ∧
    ((docSlice c9Doc 0 4).start ≤ (docSlice c9Doc 0 4).stop ∧
      (docSlice c9Doc 0 4).text = pySlice c9Doc.text (docSlice c9Doc 0 4).start (docSlice c9Doc 0 4).stop) := by
  constructor
  · exact c9_span_text_invariant.2.1 c9Doc ⟨("ab").toList, 0, 2⟩ (by decide)
  · exact c9_span_text_invariant.2.2 c9Doc (docSlice c9Doc 0 2) (docSlice c9Doc 2 4)
      (docSlice c9Doc 0 4) rfl (by decide) (by decide)

/-! ## Claim C3 -/

/-- First Word candidate of the C3 counterexample (score 0.6). -/
def c3Word1 : Word :=
  { docId := 0, text := ("слова").toList, startChar := 0, stopChar := 5,
    normalizedText := ("слова").toList,
    attrs := [(("lang"), AttrVal.s (("uk").toList)),
              (("lemma"), AttrVal.s (("слово").toList)),
              (("pos"), AttrVal.s (("NOUN").toList)),
              (("score"), AttrVal.q (3/5))] }

/-- Second Word candidate: identical to the first in every attribute except
the confidence score (0.5). -/
def c3Word2 : Word :=
  { docId := 0, text := ("слова").toList, startChar := 0, stopChar := 5,
    normalizedText := ("слова").toList,
    attrs := [(("lang"), AttrVal.s (("uk").toList)),
              (("lemma"), AttrVal.s (("слово").toList)),
              (("pos"), AttrVal.s (("NOUN").toList)),
              (("score"), AttrVal.q (1/2))] }

/-- C3 counterexample: deduplicating two Words that differ only in score
(0.6 and 0.5) keeps exactly the FIRST word with its score 0.6 unchanged —
not, as the claim states, one word with score `min(1, 0.6+0.5) = 1.0`.
`squeeze_words` never sums scores: it drops every later word with an
already-seen state. -/
theorem c3_counterexample :
    squeezeWords [c3Word1, c3Word2] Option.none Option.none = .ok [c3Word1]
    ∧ wattrGet c3Word1.attrs ("score") = some (AttrVal.q (3/5))
    ∧ (3 : ℚ)/5 ≠ min 1 ((3 : ℚ)/5 + 1/2) := by
  refine ⟨by rfl, by rfl, ?_⟩
  rw [min_eq_left (by norm_num)]
  norm_num

/-- C3 amended: merging candidates whose every attribute but score is equal
collapses them into the FIRST candidate, whose score is left unchanged (no
summing, no capping). -/
theorem c3_squeeze_keeps_first (w1 w2 : Word)
    (h : squeezeState Option.none Option.none w1 = squeezeState Option.none Option.none w2) :
    squeezeGo Option.none Option.none [w1, w2] [] = [w1] := by
  simp [squeezeGo, ← h]

/-- C3 witness: the amended theorem at the two concrete candidates with
scores 0.6 and 0.5. -/
theorem c3_witness :
    squeezeState Option.none Option.none c3Word1 = squeezeState Option.none Option.none c3Word2
    ∧ squeezeGo Option.none Option.none [c3Word1, c3Word2] [] = [c3Word1] :=
  ⟨by rfl, c3_squeeze_keeps_first c3Word1 c3Word2 (by rfl)⟩

/-! ## Claim C7 -/

/-- C7: requesting an attribute with no analyzer registered for the pair
(entity's class, attribute name) raises AttributeError; the error occurs
exactly when no registry entry matches, so a registered pair never silently
yields a default. -/
theorem c7_no_analyzer_attribute_error (reg : List (EKind × String)) (k : EKind) (name : String) :
    (evalLazyAttribute reg k name).toOption = Option.none
      ↔ ¬ ∃ e ∈ reg, e.1 = k ∧ e.2 = name := by
  unfold evalLazyAttribute
  by_cases h : reg.any (fun e => e.1 = k ∧ e.2 = name) = true
  · rw [if_pos h]
    simp only [Except.toOption]
    constructor
    · intro hc; exact absurd hc (by simp)
    · intro hno
      exact absurd (by simpa [List.any_eq_true, decide_eq_true_eq] using h) hno
  · rw [if_neg h]
    simp only [Except.toOption]
    constructor
    · intro _ hex
      apply h
      rw [List.any_eq_true]
      obtain ⟨e, hm, h1, h2⟩ := hex
      exact ⟨e, hm, by simp [h1, h2]⟩
    · intro _
      trivial

/-! ## Claim C6 -/

/-- A two-token document `ab`. -/
def c6Doc : Doc :=
  { id := 0, text := ("ab").toList,
    tokens := [⟨("a").toList, 0, 1⟩, ⟨("b").toList, 1, 2⟩] }

/-- Word caches of a document no words analyzer has touched. -/
def emptyCaches : WordCaches := { starting := fun _ => [], ending := fun _ => [] }

/-- The subpattern matcher used by the C6 run: `match_from` on `c6Doc`. -/
def c6Mf : Pat → ℕ → Option (List (Span × ℕ)) :=
  fun q qpos => matchFrom c6Doc emptyCaches 5 q qpos true

/-- C6 counterexample: running `match_from` of
`Pattern(TokenPattern('a'), TokenPattern('b'))` (whose `allow_inbetween`
holds the default string `'SPACES'`) over the document `ab` changes the
pattern's `allow_inbetween` field: lines 367-368 of patterns.py overwrite
the string with the resolved registry pattern.  The pattern object is NOT
immutable under matching. -/
theorem c6_counterexample :
    seqFillerAfter c6Mf (Filler.byName ("SPACES")) true
        [Pat.tp (tpText ("a")), Pat.tp (tpText ("b"))] 0
      ≠ Filler.byName ("SPACES") := by
  have h : seqFillerAfter c6Mf (Filler.byName ("SPACES")) true
      [Pat.tp (tpText ("a")), Pat.tp (tpText ("b"))] 0 = Filler.byPat spacesPat := by
    rfl
  rw [h]
  intro hc
  exact Filler.noConfusion hc

/-- C6 amended: matching leaves every Pattern field unchanged except
`allow_inbetween`: after a `match_from` call the field is either untouched
or replaced by its registry resolution (string name to registered pattern
or None); a non-string filler is never modified, and the resolution is
idempotent, so the field is stable from the first resolution on.
Subpatterns, `as_attribute` and all guard fields are never written (the
embedding's per-frame state is the filler alone because no other assignment
to `self` occurs anywhere in `match_from`). -/
theorem c6_filler_resolution (mf : Pat → ℕ → Option (List (Span × ℕ)))
    (aib : Filler) (fwd : Bool) (stm : List Pat) (pos : ℕ) :
    (seqFillerAfter mf aib fwd stm pos = aib ∨
      seqFillerAfter mf aib fwd stm pos = resolveFiller aib)
    ∧ ((∀ s, aib ≠ Filler.byName s) → seqFillerAfter mf aib fwd stm pos = aib)
    ∧ resolveFiller (resolveFiller aib) = resolveFiller aib := by
  have hres : (∀ s, aib ≠ Filler.byName s) → resolveFiller aib = aib := by
    intro hn
    cases aib with
    | nul => rfl
    | byName s => exact absurd rfl (hn s)
    | byPat p => rfl
  have hcase : seqFillerAfter mf aib fwd stm pos = aib ∨
      seqFillerAfter mf aib fwd stm pos = resolveFiller aib := by
    cases stm with
    | nil => exact Or.inl rfl
    | cons s0 rest =>
      cases rest with
      | nil => exact Or.inl rfl
      | cons s1 srest =>
        simp only [seqFillerAfter]
        cases hmf : mf (seqCur fwd s0 (s1 :: srest)) pos with
        | none => exact Or.inl rfl
        | some l =>
          cases l with
          | nil => exact Or.inl rfl
          | cons x xs => exact Or.inr rfl
  refine ⟨hcase, ?_, ?_⟩
  · intro hn
    rcases hcase with h | h
    · exact h
    · rw [h, hres hn]
  · cases aib with
    | nul => rfl
    | byName s =>
        unfold resolveFiller getPattern
        by_cases h : s = "SPACES" <;> simp [h]
    | byPat p => rfl

/-- C6 witness: the amended theorem at a concrete non-string filler (None),
which the concrete run leaves unchanged. -/
theorem c6_witness :
    (∀ s, Filler.nul ≠ Filler.byName s) ∧
      seqFillerAfter c6Mf Filler.nul true
        [Pat.tp (tpText ("a")), Pat.tp (tpText ("b"))] 0 = Filler.nul :=
  ⟨fun _ h => Filler.noConfusion h,
   (c6_filler_resolution c6Mf Filler.nul true
      [Pat.tp (tpText ("a")), Pat.tp (tpText ("b"))] 0).2.1
     (fun _ h => Filler.noConfusion h)⟩

/-! ## Claim C10 -/

/-- A sequence frame whose `allow_inbetween` is an unregistered name behaves
exactly as one with no filler: `get_pattern` returns None for the name and
line 369 of patterns.py then takes the no-filler branch.  Every recursive
frame re-resolves in the same way. -/
theorem seqFromF_unknown_name (mf : Pat → ℕ → Option (List (Span × ℕ)))
    (d : Doc) (n : String) (hn : getPattern n = Option.none) :
    ∀ (b : ℕ) (stm : List Pat) (fwd : Bool) (post : Span → Span) (pos : ℕ),
      seqFromF mf d (Filler.byName n) fwd post b stm pos
        = seqFromF mf d Filler.nul fwd post b stm pos := by
  intro b
  induction b with
  | zero => intro stm fwd post pos; rfl
  | succ b ih =>
      intro stm fwd post pos
      cases stm with
      | nil => rfl
      | cons s0 rest =>
        cases rest with
        | nil => rfl
        | cons s1 srest =>
          simp only [seqFromF]
          have hres : resolveFiller (Filler.byName n) = Filler.nul := by
            simp only [resolveFiller, hn]
          have hres2 : resolveFiller Filler.nul = Filler.nul := rfl
          rw [hres, hres2]
          simp only [ih]

/-- C10: a Sequence whose filler is a string name other than the registered
SPACES does not fail with an unknown-name error: `NLP.get_pattern` returns
None for it, the assignment on line 368 stores that None, and the sequence
matches exactly as if `allow_inbetween=None` had been configured
(sub-pattern matches must abut). -/
theorem c10_unknown_filler_name (fuel : ℕ) (d : Doc) (wc : WordCaches)
    (subs : List Pat) (n : String) (asAttr : Option String) (pos : ℕ) (fwd : Bool)
    (hn : n ≠ "SPACES") :
    matchFrom d wc fuel (Pat.seq subs (Filler.byName n) asAttr) pos fwd
      = matchFrom d wc fuel (Pat.seq subs Filler.nul asAttr) pos fwd := by
  have hgp : getPattern n = Option.none := by
    unfold getPattern
    rw [if_neg hn]
  cases fuel with
  | zero => rfl
  | succ f =>
      simp only [matchFrom]
      rw [seqFromF_unknown_name (fun sq qpos => matchFrom d wc f sq qpos fwd) d n hgp
        subs.length subs fwd (applyAsAttr asAttr) pos]

/-- C10 witness: the theorem at the concrete unregistered name FOO on the
two-token document, with the equal match results evaluated. -/
theorem c10_witness :
    (("FOO" : String) ≠ "SPACES") ∧
      matchFrom c6Doc emptyCaches 4
          (Pat.seq [Pat.tp (tpText ("a")), Pat.tp (tpText ("b"))] (Filler.byName ("FOO")) Option.none) 0 true
        = matchFrom c6Doc emptyCaches 4
          (Pat.seq [Pat.tp (tpText ("a")), Pat.tp (tpText ("b"))] Filler.nul Option.none) 0 true :=
  ⟨by decide,
   c10_unknown_filler_name 4 c6Doc emptyCaches
     [Pat.tp (tpText ("a")), Pat.tp (tpText ("b"))] ("FOO") Option.none 0 true (by decide)⟩

/-! ## Claim C5 -/

/-- A morphological-analyzer tag with no features set. -/
def unitTag : PTag :=
  { animacy := AttrVal.none, aspect := AttrVal.none, case_ := AttrVal.none,
    gender := AttrVal.none, involvement := AttrVal.none, mood := AttrVal.none,
    number := AttrVal.none, pos := AttrVal.none, person := AttrVal.none,
    tense := AttrVal.none, transitivity := AttrVal.none, voice := AttrVal.none,
    grammemes := [], rareCases := [] }

/-- A concrete instantiation of the external morphological collaborator:
one known candidate per query, normal form the query itself, score 1. -/
def unitParse : List Char → List Parse :=
  fun s => [{ isKnown := true, normalForm := s, score := 1, tag := unitTag }]

/-- A word already sitting in a token's `words_starting_here` cache. -/
def c5Word0 : Word :=
  { docId := 7, text := ("x").toList, startChar := 0, stopChar := 1,
    normalizedText := ("x").toList, attrs := [] }

/-- C5 counterexample: invoking `WordsAnalyzer.eval_words_forward` on a
token whose `words_starting_here` cache already holds a word does NOT fail:
the analyzer keeps the cached word and extends the list with newly parsed
words (the uk run over the one-token document `а` returns the old word plus
one new word).  The claim's "fails rather than recomputing or extending" is
false for this analyzer. -/
theorem c5_counterexample :
    (evalWordsForwardOnce ukCfg unitParse 0 (("а").toList) [⟨("а").toList, 0, 1⟩]
        (some [c5Word0])).toOption.map (fun l => (l.length, l.take 1))
      = some (2, [c5Word0]) := by
  rfl

/-- C5 amended: the cache-recomputation guard is analyzer-specific, not a
framework rule.  `Tokenizer.eval_tokens` and `PatternAnalyzer.eval_find_tags`
raise when their attribute is already cached; `WordsAnalyzer`'s evaluation
never raises on an existing cache — it extends and re-squeezes whatever list
is there (by design: the uk and ru analyzers both write the same token
attribute in sequence). -/
theorem c5_cache_write_discipline :
    (∀ (split : List Char → List Tok) (text : List Char) (cache : List (String × DAttr)),
        cacheHas cache ("tokens") = true →
        (evalTokens split text cache).toOption = Option.none)
    ∧ (∀ (cache : List (String × DAttr)),
        cacheHas cache ("find_tags") = true →
        (evalFindTags cache).toOption = Option.none)
    ∧ (∀ (cfg : WAConfig) (parse : List Char → List Parse) (docId : ℕ)
        (docText : List Char) (ts : List Tok) (existing : Option (List Word)),
        (evalWordsForwardOnce cfg parse docId docText ts existing).toOption.isSome = true) := by
  refine ⟨?_, ?_, ?_⟩
  · intro split text cache h
    unfold evalTokens
    rw [if_pos h]
    rfl
  · intro cache h
    unfold evalFindTags
    rw [if_neg (by simp [h])]
    rfl
  · intro cfg parse docId docText ts existing
    cases ts with
    | nil => rfl
    | cons t rest => rfl

/-- C5 witness: the amended theorem at concrete caches that already hold
the attribute in question. -/
theorem c5_witness :
    (cacheHas [(("tokens"), DAttr.toks [])] ("tokens") = true
      ∧ (evalTokens (fun _ => []) (("x").toList) [(("tokens"), DAttr.toks [])]).toOption
          = Option.none)
    ∧ (cacheHas [(("find_tags"), DAttr.findTagsClosure)] ("find_tags") = true
      ∧ (evalFindTags [(("find_tags"), DAttr.findTagsClosure)]).toOption = Option.none)
    ∧ (evalWordsForwardOnce ukCfg unitParse 0 (("а").toList) [⟨("а").toList, 0, 1⟩]
        (some [c5Word0])).toOption.isSome = true :=
  ⟨⟨by rfl, c5_cache_write_discipline.1 (fun _ => []) (("x").toList) _ (by rfl)⟩,
   ⟨by rfl, c5_cache_write_discipline.2.1 _ (by rfl)⟩,
   c5_cache_write_discipline.2.2 ukCfg unitParse 0 (("а").toList)
     [⟨("а").toList, 0, 1⟩] (some [c5Word0])⟩

/-! ## Claim C4 -/

/-- A chain of `k` consecutive matches of the wrapped pattern from a
starting position: each step's `(span, next_position)` pair must be among
the wrapped pattern's matches at the position reached so far, and the
accumulated span is concatenated in traversal order exactly as
`RepeatedPattern.match_from` does (`previously_matched + matched_sp` when
forward, mirrored when backward).  Returns the final accumulated span and
final position; `none` when some step is not actually reachable. -/
def chainAccum (sub : ℕ → Option (List (Span × ℕ))) (d : Doc) (fwd : Bool) :
    Span → ℕ → List (Span × ℕ) → Option (Span × ℕ)
  | prev, pos, [] => some (prev, pos)
  | prev, pos, (sp, np) :: rest =>
      match sub pos with
      | Option.none => Option.none
      | some l =>
          if l.any (fun x => x = (sp, np)) then
            match (if fwd then spanAdd d prev sp else spanAdd d sp prev).toOption with
            | some m => chainAccum sub d fwd m np rest
            | Option.none => Option.none
          else Option.none

/-- When `min_matches` is 0, the zero-repetition yield after the loop always
reaches the output: the accumulated span at the starting position is in the
result of any completed loop run. -/
theorem repLoopF_eps (d : Doc) (fwd : Bool)
    (deepF : ℕ → Span → Option (List (Span × ℕ))) (pos : ℕ) (prev : Span) :
    ∀ (l res : List (Span × ℕ)),
      repLoopF d fwd deepF pos prev 0 l = some res → (prev, pos) ∈ res := by
  intro l
  induction l with
  | nil =>
      intro res h
      simp only [repLoopF] at h
      simp at h
      rw [← h]
      simp
  | cons x rest ihl =>
      intro res h
      obtain ⟨sp, nextPos⟩ := x
      simp only [repLoopF, bind, Option.bind_eq_some] at h
      obtain ⟨matched, hadd, deeper, hdeep, tailRes, htail, hres⟩ := h
      injection hres with hres
      rw [← hres]
      have hmem := ihl tailRes htail
      simp [hmem]

/-- A completed loop run of `RepeatedPattern.match_from` whose input list
contains the pair `(sp, np)` produced, for that iteration: the concatenated
span (the adjacency concat succeeded), a completed deeper recursion whose
results are all in the output, and — when `min_matches <= 1` — the yield of
the current accumulation. -/
theorem repLoopF_mem (d : Doc) (fwd : Bool)
    (deepF : ℕ → Span → Option (List (Span × ℕ))) (pos : ℕ) (prev : Span)
    (minM : ℕ) (sp : Span) (np : ℕ) :
    ∀ (l res : List (Span × ℕ)),
      l.any (fun x => x = (sp, np)) = true →
      repLoopF d fwd deepF pos prev minM l = some res →
      ∃ matched deeper,
        (if fwd then spanAdd d prev sp else spanAdd d sp prev).toOption = some matched
        ∧ deepF np matched = some deeper
        ∧ (minM ≤ 1 → (matched, np) ∈ res)
        ∧ (∀ y ∈ deeper, y ∈ res) := by
  intro l
  induction l with
  | nil => intro res hany h; simp at hany
  | cons x rest ihl =>
      intro res hany h
      obtain ⟨sp1, np1⟩ := x
      simp only [repLoopF, bind, Option.bind_eq_some] at h
      obtain ⟨matched, hadd, deeper, hdeep, tailRes, htail, hres⟩ := h
      injection hres with hres
      by_cases hx : ((sp1, np1) : Span × ℕ) = (sp, np)
      · injection hx with hx1 hx2
        subst hx1
        subst hx2
        refine ⟨matched, deeper, hadd, hdeep, ?_, ?_⟩
        · intro hmin
          rw [← hres, if_pos hmin]
          simp
        · intro y hy
          rw [← hres]
          simp [hy]
      · have hany2 : rest.any (fun x => x = (sp, np)) = true := by
          simp only [List.any_cons, Bool.or_eq_true, decide_eq_true_eq] at hany
          rcases hany with h1 | h2
          · exact absurd h1 hx
          · exact h2
        obtain ⟨matched2, deeper2, hadd2, hdeep2, hyield2, hsub2⟩ := ihl tailRes hany2 htail
        refine ⟨matched2, deeper2, hadd2, hdeep2, ?_, ?_⟩
        · intro hmin
          rw [← hres]
          simp [hyield2 hmin]
        · intro y hy
          rw [← hres]
          simp [hsub2 y hy]

/-- C4: for a quantified pattern with inclusive bounds matched from any
position (in either direction), every reachable repetition count `k` with
`min <= k` and (when max is finite) `k <= max` yields the corresponding
accumulated span in a completed run of `RepeatedPattern.match_from` —
including, when min is 0, the zero-repetition chain whose yield is the
empty accumulation at the starting position. -/
theorem c4_quantifier_completeness (sub : ℕ → Option (List (Span × ℕ)))
    (d : Doc) (fwd : Bool) :
    ∀ (steps : List (Span × ℕ)) (fuel pos : ℕ) (prev m : Span) (q : ℕ)
      (minM : ℕ) (maxM : Option ℕ) (res : List (Span × ℕ)),
      repFromF sub d fwd fuel pos prev minM maxM = some res →
      chainAccum sub d fwd prev pos steps = some (m, q) →
      minM ≤ steps.length →
      (∀ mx, maxM = some mx → steps.length ≤ mx) →
      (m, q) ∈ res := by
  intro steps
  induction steps with
  | nil =>
      intro fuel pos prev m q minM maxM res hrun hchain hmin hmax
      simp only [chainAccum, Option.some.injEq, Prod.mk.injEq] at hchain
      obtain ⟨hm, hq⟩ := hchain
      subst hm
      subst hq
      have hmin0 : minM = 0 := Nat.le_zero.mp hmin
      subst hmin0
      cases fuel with
      | zero => exact absurd hrun (by simp [repFromF])
      | succ f =>
          simp only [repFromF, bind, Option.bind_eq_some] at hrun
          obtain ⟨l, hsub, hloop⟩ := hrun
          exact repLoopF_eps d fwd _ pos prev l res hloop
  | cons x rest ihsteps =>
      intro fuel pos prev m q minM maxM res hrun hchain hmin hmax
      obtain ⟨sp, np⟩ := x
      cases fuel with
      | zero => exact absurd hrun (by simp [repFromF])
      | succ f =>
          simp only [repFromF, bind, Option.bind_eq_some] at hrun
          obtain ⟨l, hsub, hloop⟩ := hrun
          simp only [chainAccum, hsub] at hchain
          by_cases hmem : l.any (fun x => x = (sp, np)) = true
          · rw [if_pos hmem] at hchain
            cases hadd : (if fwd then spanAdd d prev sp else spanAdd d sp prev).toOption with
            | none => rw [hadd] at hchain; exact absurd hchain (by simp)
            | some m1 =>
                rw [hadd] at hchain
                obtain ⟨matched, deeper, hadd2, hdeep, hyield, hsubset⟩ :=
                  repLoopF_mem d fwd _ pos prev minM sp np l res hmem hloop
                rw [hadd] at hadd2
                injection hadd2 with hma
                subst hma
                cases rest with
                | nil =>
                    simp only [chainAccum, Option.some.injEq, Prod.mk.injEq] at hchain
                    obtain ⟨hm, hq⟩ := hchain
                    subst hm
                    subst hq
                    exact hyield (by simpa using hmin)
                | cons r0 rs =>
                    cases hmx : maxM with
                    | none =>
                        rw [hmx] at hdeep
                        simp only at hdeep
                        refine hsubset _ (ihsteps f np m1 m q (max 1 (minM - 1))
                          Option.none deeper hdeep hchain ?_ ?_)
                        · simp only [List.length_cons] at hmin ⊢
                          omega
                        · intro mx hmx2
                          exact absurd hmx2 (by simp)
                    | some mx =>
                        have hlen : (r0 :: rs).length + 1 ≤ mx := by
                          have := hmax mx hmx
                          simpa using this
                        have h1 : 1 < mx := by
                          simp only [List.length_cons] at hlen
                          omega
                        rw [hmx] at hdeep
                        simp only [if_pos h1] at hdeep
                        refine hsubset _ (ihsteps f np m1 m q (max 1 (minM - 1))
                          (some (mx - 1)) deeper hdeep hchain ?_ ?_)
                        · simp only [List.length_cons] at hmin ⊢
                          omega
                        · intro mx2 hmx2
                          injection hmx2 with hmx2
                          subst hmx2
                          simp only [List.length_cons] at hlen ⊢
                          omega
          · rw [if_neg hmem] at hchain
            exact absurd hchain (by simp)

/-- The four-token document `aaaa`. -/
def c4Doc : Doc :=
  { id := 0, text := ("aaaa").toList,
    tokens := [⟨("a").toList, 0, 1⟩, ⟨("a").toList, 1, 2⟩,
               ⟨("a").toList, 2, 3⟩, ⟨("a").toList, 3, 4⟩] }

/-- The wrapped pattern of the C4 witness: `TokenPattern('a')` matched
forward by the engine. -/
def c4Sub : ℕ → Option (List (Span × ℕ)) :=
  fun pos => matchFrom c4Doc emptyCaches 2 (Pat.tp (tpText ("a"))) pos true

/-- C4 witness: `TokenPattern('a')[1:3]` on `aaaa` from offset 0 yields the
accumulated spans of length 1, 2 AND 3; the theorem applied to the
length-2 chain places its span among the results. -/
theorem c4_witness :
    repFromF c4Sub c4Doc true 5 0 (posToSpan c4Doc 0) 1 (some 3)
        = some [(mkSpan c4Doc 0 1 [], 1), (mkSpan c4Doc 0 2 [], 2), (mkSpan c4Doc 0 3 [], 3)]
    ∧ chainAccum c4Sub c4Doc true (posToSpan c4Doc 0) 0
        [(mkSpan c4Doc 0 1 [], 1), (mkSpan c4Doc 1 2 [], 2)]
      = some (mkSpan c4Doc 0 2 [], 2)
    ∧ (mkSpan c4Doc 0 2 [], 2)
        ∈ [(mkSpan c4Doc 0 1 [], 1), (mkSpan c4Doc 0 2 [], 2), (mkSpan c4Doc 0 3 [], 3)] := by
  refine ⟨by rfl, by rfl, ?_⟩
  refine c4_quantifier_completeness c4Sub c4Doc true
    [(mkSpan c4Doc 0 1 [], 1), (mkSpan c4Doc 1 2 [], 2)] 5 0 (posToSpan c4Doc 0)
    (mkSpan c4Doc 0 2 []) 2 1 (some 3) _ (by rfl) (by rfl) (by decide) ?_
  intro mx hmx
  injection hmx with hmx
  subst hmx
  decide

/-! ## Claim C1 -/

/-- The C1 failing-input document: text = combining acute accent (U+0301)
followed by Cyrillic а.  The repository's tokenizer splits this text into
the accent run and the letter: the accent matches none of the regex
alternatives (not a word character, digit, punctuation or space), so it
becomes its own gap token `[0,1)`, and `а` the token `[1,2)`. -/
def c1Doc : Doc :=
  { id := 0, text := Char.ofNat 0x301 :: ("а").toList,
    tokens := [⟨[Char.ofNat 0x301], 0, 1⟩, ⟨("а").toList, 1, 2⟩] }

/-- The default pipeline's words analyzers (uk then ru, registration
order), with the external morphological collaborator instantiated by the
one-candidate oracle. -/
def c1Analyzers : List WAnalyzer := [⟨ukCfg, unitParse⟩, ⟨ruCfg, unitParse⟩]

/-- The word caches of `c1Doc`, as the registered analyzers compute them on
first access. -/
def c1Caches : WordCaches :=
  { starting := fun i => wordsStartingHere c1Analyzers c1Doc i,
    ending := fun i => wordsEndingHere c1Analyzers c1Doc i }

/-- `Pattern(WordPattern())`: a full-document scan for any single word. -/
def c1Pat : Pat :=
  Pat.seq [Pat.wp { text := Option.none, ignoreCase := false, kwargs := [] }]
    (Filler.byName ("SPACES")) Option.none

/-- C1 evaluated at the failing input: the uk analyzer's backward pass
reaches the word `[0,2)` (suffix `́а`, whose replacement-normalized
form is `а`), but its forward pass anchored at token 0 aborts immediately —
the replacement deletes the accent, leaving an empty prefix — and never
recurses to longer prefixes.  So `words_ending_here` of the last token
holds a word `[0,2)` that `words_starting_here` of the first token does
not, and the full scan yields the span (0,2) backward but not forward:
the two scans differ as sets of (start, end, attributes). -/
theorem c1_direction_divergence :
    (patMatch c1Doc c1Caches 5 c1Pat true).map (fun l => l.map (fun s => (s.start, s.stop)))
        = some [(1, 2)]
    ∧ (patMatch c1Doc c1Caches 5 c1Pat false).map (fun l => l.map (fun s => (s.start, s.stop)))
        = some [(1, 2), (0, 2)]
    ∧ ((patMatch c1Doc c1Caches 5 c1Pat true).bind (fun a =>
        (patMatch c1Doc c1Caches 5 c1Pat false).map (fun b => spanSetBeq a b)))
      = some false := by
  exact ⟨by rfl, by rfl, by rfl⟩

end LazyNlp
